import Mathlib

/-!
Verification of the Amnezia-WG configuration subsystems of this repository:
the UAPI reconciliation engine (wgengine/wgcfg/writer.go) and the peer
configuration discovery fan-out (cmd/tailscale/cli/amnezia.go).

The Go code is shallowly embedded: machine integers (uint16/uint32) are
modelled as Nat, with the explicit conversions (uint16(x), uint32(x)) that
appear in the source modelled as reduction mod 2^16 / 2^32; keys
(key.NodePublic / key.NodePrivate, compared by value in the source) are
modelled as Nat, and UntypedHexString is modelled by an injective canonical
rendering to String.  The io.Writer sink is modelled explicitly: the set
closure of ToUAPI is a fold with sticky-error state over the sequence of
(key, value) pairs the code passes to set, which is itself a pure function
of (cfg, prev) — the latched error never alters the control flow of ToUAPI,
only whether a write is attempted.
-/

namespace AwgSpec

/-- netip.Prefix, modelled as an address plus a bit length.  Its String
method is modelled as an injective rendering addr/bits. -/
structure Cidr where
  addr : Nat
  bits : Nat
deriving DecidableEq, Repr

def Cidr.str (c : Cidr) : String := toString c.addr ++ "/" ++ toString c.bits

/-- ipn.MagicHeaderRange: Min and Max are uint32 in the source. -/
structure MagicHeaderRange where
  min : Nat
  max : Nat
deriving DecidableEq, Repr

/-- wgcfg.Peer, restricted to the fields ToUAPI reads:
PublicKey, WGEndpoint (both key.NodePublic), AllowedIPs, PersistentKeepalive. -/
structure Peer where
  publicKey : Nat
  wgEndpoint : Nat
  allowedIPs : List Cidr
  persistentKeepalive : Nat
deriving DecidableEq, Repr

/-- The zero value of wgcfg.Peer, what a Go map lookup yields on a miss. -/
def zeroPeer : Peer :=
  { publicKey := 0, wgEndpoint := 0, allowedIPs := [], persistentKeepalive := 0 }

/-- wgcfg.Config, restricted to the fields ToUAPI reads.  AmneziaJC..AmneziaS4
are uint16, AmneziaH1..AmneziaH4 are MagicHeaderRange, AmneziaI1..AmneziaI5
are strings. -/
structure Config where
  privateKey : Nat
  peers : List Peer
  amneziaJC : Nat
  amneziaJMin : Nat
  amneziaJMax : Nat
  amneziaS1 : Nat
  amneziaS2 : Nat
  amneziaS3 : Nat
  amneziaS4 : Nat
  amneziaI1 : String
  amneziaI2 : String
  amneziaI3 : String
  amneziaI4 : String
  amneziaI5 : String
  amneziaH1 : MagicHeaderRange
  amneziaH2 : MagicHeaderRange
  amneziaH3 : MagicHeaderRange
  amneziaH4 : MagicHeaderRange
deriving DecidableEq, Repr

/-- The envknob overrides TS_AMNEZIA_* consulted by ToUAPI.  The integer
knobs are modelled as Nat (the source converts them with uint16/uint32,
modelled below). -/
structure Env where
  jc : Nat
  jmin : Nat
  jmax : Nat
  s1 : Nat
  s2 : Nat
  s3 : Nat
  s4 : Nat
  i1 : String
  i2 : String
  i3 : String
  i4 : String
  i5 : String
  h1 : Nat
  h2 : Nat
  h3 : Nat
  h4 : Nat
deriving DecidableEq, Repr

/-- Environment with no overrides set (each knob reads its zero value). -/
def zeroEnv : Env :=
  { jc := 0, jmin := 0, jmax := 0, s1 := 0, s2 := 0, s3 := 0, s4 := 0
  , i1 := "", i2 := "", i3 := "", i4 := "", i5 := ""
  , h1 := 0, h2 := 0, h3 := 0, h4 := 0 }

/-- Go conversion uint16(x) for a nonnegative envknob int. -/
def u16Of (v : Nat) : Nat := v % 65536

/-- Go conversion uint32(x) for a nonnegative envknob int. -/
def u32Of (v : Nat) : Nat := v % 4294967296

/-- key.NodePublic.UntypedHexString / key.NodePrivate.UntypedHexString,
modelled as an injective canonical rendering of the key. -/
def hexStr (k : Nat) : String := toString k

/-- One scalar uint16 parameter of the device block of ToUAPI:
take the stored value, fall back to the env knob when zero, emit when
positive (writer.go lines 77-131). -/
def uint16Line (k : String) (stored envVal : Nat) : List (String × String) :=
  let v := if stored = 0 then u16Of envVal else stored
  if v > 0 then [(k, toString v)] else []

/-- One signature-packet string parameter I1..I5 of the device block:
take the stored value, fall back to the env knob when empty, emit when
non-empty (writer.go lines 135-173). -/
def sigLine (k : String) (stored envVal : String) : List (String × String) :=
  let v := if stored = "" then envVal else stored
  if v ≠ "" then [(k, v)] else []

/-- setMagicHeaderRange value rendering: a bare integer when Min == Max,
else min-max (writer.go lines 61-67). -/
def mhrStr (r : MagicHeaderRange) : String :=
  if r.min = r.max then toString r.min
  else toString r.min ++ "-" ++ toString r.max

/-- One header range parameter H1..H4 of the device block: when the stored
range is {0,0} consult the env knob (collapsing it to a point range when
positive), then emit when the resulting range has Min > 0 or Max > 0
(writer.go lines 176-218). -/
def headerLine (k : String) (stored : MagicHeaderRange) (envVal : Nat) : List (String × String) :=
  let h :=
    if stored.min = 0 ∧ stored.max = 0 then
      let hv := u32Of envVal
      if hv > 0 then { min := hv, max := hv } else stored
    else stored
  if h.min > 0 ∨ h.max > 0 then [(k, mhrStr h)] else []

/-- The device-level section of ToUAPI (writer.go lines 72-219): emitted
only when the private key changed, then the private key followed by each
resolved Amnezia parameter. -/
def deviceLines (env : Env) (cfg prev : Config) : List (String × String) :=
  if prev.privateKey = cfg.privateKey then []
  else
    ("private_key", hexStr cfg.privateKey) ::
      (uint16Line "jc" cfg.amneziaJC env.jc ++
       uint16Line "jmin" cfg.amneziaJMin env.jmin ++
       uint16Line "jmax" cfg.amneziaJMax env.jmax ++
       uint16Line "s1" cfg.amneziaS1 env.s1 ++
       uint16Line "s2" cfg.amneziaS2 env.s2 ++
       uint16Line "s3" cfg.amneziaS3 env.s3 ++
       uint16Line "s4" cfg.amneziaS4 env.s4 ++
       sigLine "i1" cfg.amneziaI1 env.i1 ++
       sigLine "i2" cfg.amneziaI2 env.i2 ++
       sigLine "i3" cfg.amneziaI3 env.i3 ++
       sigLine "i4" cfg.amneziaI4 env.i4 ++
       sigLine "i5" cfg.amneziaI5 env.i5 ++
       headerLine "h1" cfg.amneziaH1 env.h1 ++
       headerLine "h2" cfg.amneziaH2 env.h2 ++
       headerLine "h3" cfg.amneziaH3 env.h3 ++
       headerLine "h4" cfg.amneziaH4 env.h4)

/-- wgcfg.cidrsEqual (writer.go lines 301-329): false when lengths differ,
true when equal in order, otherwise true iff every element of y is a key
of the map built from x. -/
def cidrsEqual (x y : List Cidr) : Bool :=
  if x.length = y.length then
    if x = y then true
    else y.all (fun v => decide (v ∈ x))
  else false

/-- One fold step of the Go map build old[p.PublicKey] = p: a later entry
with the same key overwrites an earlier one. -/
def lookupStep (k : Nat) (acc : Option Peer) (p : Peer) : Option Peer :=
  if p.publicKey = k then some p else acc

/-- Lookup in the old map built from prev.Peers (writer.go lines 221-224):
the last peer of the list carrying the key wins, none on a miss. -/
def mapLookup (peers : List Peer) (k : Nat) : Option Peer :=
  peers.foldl (lookupStep k) none

/-- willSetEndpoint of writer.go line 238. -/
def willSetEndpointB (prevPeers : List Peer) (p : Peer) : Bool :=
  let oldOpt := mapLookup prevPeers p.publicKey
  ((oldOpt.getD zeroPeer).wgEndpoint != p.publicKey) || !oldOpt.isSome

/-- willChangeIPs of writer.go line 239. -/
def willChangeIPsB (prevPeers : List Peer) (p : Peer) : Bool :=
  let oldOpt := mapLookup prevPeers p.publicKey
  !(cidrsEqual (oldOpt.getD zeroPeer).allowedIPs p.allowedIPs) || !oldOpt.isSome

/-- willChangeKeepalive of writer.go line 240. -/
def willChangeKeepaliveB (prevPeers : List Peer) (p : Peer) : Bool :=
  let oldOpt := mapLookup prevPeers p.publicKey
  (oldOpt.getD zeroPeer).persistentKeepalive != p.persistentKeepalive

/-- The allowed_ip lines of a peer block, in desired order (writer.go
lines 274-276). -/
def allowedIPLines (ips : List Cidr) : List (String × String) :=
  ips.map (fun ipp => ("allowed_ip", ipp.str))

/-- The block ToUAPI emits for one desired peer (writer.go lines 227-284):
nothing when no change boolean holds, otherwise the header pair followed by
the endpoint, allowed-IP and keepalive sections gated by their booleans.
The logf call of the drift branch writes nothing to the sink and is not
modelled. -/
def peerLines (prevPeers : List Peer) (p : Peer) : List (String × String) :=
  if !willSetEndpointB prevPeers p && !willChangeIPsB prevPeers p &&
      !willChangeKeepaliveB prevPeers p then []
  else
    ("public_key", hexStr p.publicKey) :: ("protocol_version", "1") ::
      ((if willSetEndpointB prevPeers p then [("endpoint", hexStr p.publicKey)] else []) ++
       (if willChangeIPsB prevPeers p then
          ("replace_allowed_ips", "true") :: allowedIPLines p.allowedIPs
        else []) ++
       (if willChangeKeepaliveB prevPeers p then
          [("persistent_keepalive_interval", toString p.persistentKeepalive)]
        else []))

/-- The removal block for one defunct peer (writer.go lines 290-293). -/
def removeLines (p : Peer) : List (String × String) :=
  [("public_key", hexStr p.publicKey), ("remove", "true")]

/-- The distinct public keys of a peer list, in first-insertion order: the
key set of the Go map built from the list. -/
def distinctKeys (ps : List Peer) : List Nat :=
  ps.foldl (fun acc p => if p.publicKey ∈ acc then acc else acc ++ [p.publicKey]) []

/-- The entries remaining in the old map after the deletion loop of
writer.go lines 287-289, enumerated in a canonical order.  The Go range
over the map visits exactly these entries, once each, in an unspecified
order; ToUAPI below therefore takes the actual iteration order as an
explicit argument, constrained to be a permutation of this list. -/
def removedList (cfg prev : Config) : List Peer :=
  ((distinctKeys prev.peers).filter
      (fun k => !((cfg.peers.map Peer.publicKey).contains k))).filterMap
    (mapLookup prev.peers)

/-- The sequence of (key, value) pairs ToUAPI passes to its set closure,
for a given iteration order of the removal map: device section, then the
blocks of the desired peers in order, then the removal blocks.  This
sequence does not depend on the sticky error state (the latched error
never changes the control flow of ToUAPI, only whether a write is
attempted), so it is a pure function of (env, cfg, prev, removalOrder). -/
def toUAPIdirectives (env : Env) (cfg prev : Config) (removalOrder : List Peer) :
    List (String × String) :=
  deviceLines env cfg prev ++
    cfg.peers.flatMap (peerLines prev.peers) ++
    removalOrder.flatMap removeLines

/-- The line fmt.Fprintf writes for one set call: key=value followed by a
newline (writer.go line 53). -/
def fmtLine (kv : String × String) : String := kv.1 ++ "=" ++ kv.2 ++ "\n"

/-- One invocation of the set closure of ToUAPI (writer.go lines 49-57)
against a sink whose n-th attempted write fails with the given message.
State: writes attempted so far, lines actually written, latched error.
When an error is latched the call is a no-op; otherwise the write is
attempted and a failure latches its error. -/
def setStep (f : Nat → Option String) (st : Nat × List String × Option String)
    (kv : String × String) : Nat × List String × Option String :=
  match st with
  | (n, out, some e) => (n, out, some e)
  | (n, out, none) =>
    match f n with
    | none => (n + 1, out ++ [fmtLine kv], none)
    | some e => (n + 1, out, some e)

/-- A full run of ToUAPI against a fallible sink: fold the set closure over
the directive sequence, then wrap a latched error as ToUAPI does on return
(writer.go lines 295-298).  Result: (writes attempted, lines written,
returned error). -/
def toUAPIRun (env : Env) (cfg prev : Config) (removalOrder : List Peer)
    (f : Nat → Option String) : Nat × List String × Option String :=
  let r := (toUAPIdirectives env cfg prev removalOrder).foldl (setStep f) (0, [], none)
  (r.1, r.2.1, r.2.2.map (fun e => "ToUAPI: " ++ e))

/-- The first failing write attempt at or after index start, among m
further attempts: index and error message. -/
def firstFailAux (f : Nat → Option String) : Nat → Nat → Option (Nat × String)
  | _, 0 => none
  | start, m + 1 =>
    match f start with
    | some e => some (start, e)
    | none => firstFailAux f (start + 1) m

/-- The first failing write attempt among the first m, if any. -/
def firstFailure (f : Nat → Option String) (m : Nat) : Option (Nat × String) :=
  firstFailAux f 0 m

/-- ipn.AmneziaWGPrefs: the preference object the CLI reads and writes.
JC, JMin, JMax, S1, S2 are uint16, H1..H4 uint32, I1..I5 strings. -/
structure AmneziaWGPrefs where
  jc : Nat
  jmin : Nat
  jmax : Nat
  s1 : Nat
  s2 : Nat
  i1 : String
  i2 : String
  i3 : String
  i4 : String
  i5 : String
  h1 : Nat
  h2 : Nat
  h3 : Nat
  h4 : Nat
deriving DecidableEq, Repr

/-- isConfigZero (amnezia.go lines 312-317). -/
def isConfigZero (config : AmneziaWGPrefs) : Bool :=
  config.jc == 0 && config.jmin == 0 && config.jmax == 0 &&
    config.s1 == 0 && config.s2 == 0 &&
    config.i1 == "" && config.i2 == "" && config.i3 == "" &&
    config.i4 == "" && config.i5 == "" &&
    config.h1 == 0 && config.h2 == 0 && config.h3 == 0 && config.h4 == 0

/-- The all-zero ipn.AmneziaWGPrefs value. -/
def zeroPrefs : AmneziaWGPrefs :=
  { jc := 0, jmin := 0, jmax := 0, s1 := 0, s2 := 0
  , i1 := "", i2 := "", i3 := "", i4 := "", i5 := ""
  , h1 := 0, h2 := 0, h3 := 0, h4 := 0 }

/-- peerInfo (amnezia.go lines 611-615). -/
structure PeerInfo where
  ip : String
  name : String
  nodeKey : Nat
deriving DecidableEq, Repr

/-- peerAWGConfig (amnezia.go lines 617-621). -/
structure PeerAWGConfig where
  peerName : String
  peerIP : String
  config : AmneziaWGPrefs
deriving DecidableEq, Repr

/-- awgDiscoveryStats (amnezia.go lines 624-630).  The wall-clock Duration
field is real time and is not modelled. -/
structure AwgDiscoveryStats where
  total : Nat
  withConfig : Nat
  standard : Nat
  failed : Nat
deriving DecidableEq, Repr

/-- The entry the goroutine for input index i appends to configs, if any
(amnezia.go lines 671-678): appended exactly when the fetch returned
without error and the fetched parameters are not zero. -/
def pickConfig (peers : List PeerInfo) (fetch : Nat → Except String AmneziaWGPrefs)
    (i : Nat) : Option PeerAWGConfig :=
  match peers.get? i, fetch i with
  | some p, Except.ok cfg =>
    if isConfigZero cfg then none
    else some { peerName := p.name, peerIP := p.ip, config := cfg }
  | _, _ => none

/-- One step of the statistics loop over the ordered results (amnezia.go
lines 698-711): a failed fetch counts as failed, a zero config as standard,
otherwise as withConfig. -/
def statsStep (fetch : Nat → Except String AmneziaWGPrefs)
    (st : AwgDiscoveryStats) (i : Nat) : AwgDiscoveryStats :=
  match fetch i with
  | Except.error _ => { st with failed := st.failed + 1 }
  | Except.ok cfg =>
    if isConfigZero cfg then { st with standard := st.standard + 1 }
    else { st with withConfig := st.withConfig + 1 }

/-- requestAWGConfigsFromPeers (amnezia.go lines 639-715).  fetch i is the
outcome of requestAWGConfigFromPeer for input peer i (an error covers both
transport failure and timeout); appendOrder is the order in which the
per-peer goroutines acquire the mutex and append to configs — a
permutation of the input indices determined by completion interleaving.
The returned list is configs in append order; the statistics are computed
from the ordered array, which is indexed by input position and therefore
independent of completion order. -/
def requestAWGConfigsFromPeers (peers : List PeerInfo)
    (fetch : Nat → Except String AmneziaWGPrefs) (appendOrder : List Nat) :
    List PeerAWGConfig × AwgDiscoveryStats :=
  let configs := appendOrder.filterMap (pickConfig peers fetch)
  let stats := (List.range peers.length).foldl (statsStep fetch)
    { total := peers.length, withConfig := 0, standard := 0, failed := 0 }
  (configs, stats)

/-- The well-formedness invariants of a DeviceConfig stated by the spec
data model: peers contain no duplicate public key, and each peer's
recorded endpoint identity is its public key (the last-known-correct
value, which by construction never legitimately drifts). -/
def Config.WellFormed (c : Config) : Prop :=
  (c.peers.map Peer.publicKey).Nodup ∧ ∀ p ∈ c.peers, p.wgEndpoint = p.publicKey

instance (c : Config) : Decidable c.WellFormed := by
  unfold Config.WellFormed; infer_instance

/-! Concrete inputs used by counterexamples and witnesses. -/

/-- A configuration with the given private key and peers and every
obfuscation parameter at its zero value. -/
def mkConfig (k : Nat) (ps : List Peer) : Config :=
  { privateKey := k, peers := ps
  , amneziaJC := 0, amneziaJMin := 0, amneziaJMax := 0
  , amneziaS1 := 0, amneziaS2 := 0, amneziaS3 := 0, amneziaS4 := 0
  , amneziaI1 := "", amneziaI2 := "", amneziaI3 := "", amneziaI4 := "", amneziaI5 := ""
  , amneziaH1 := { min := 0, max := 0 }, amneziaH2 := { min := 0, max := 0 }
  , amneziaH3 := { min := 0, max := 0 }, amneziaH4 := { min := 0, max := 0 } }

def cA : Cidr := { addr := 1, bits := 32 }
def cB : Cidr := { addr := 2, bits := 32 }

/-- A well-formed peer (endpoint identity equal to its public key). -/
def samplePeer : Peer :=
  { publicKey := 7, wgEndpoint := 7, allowedIPs := [cA], persistentKeepalive := 0 }

/-- samplePeer with an extra allowed prefix and a keepalive change. -/
def samplePeerV2 : Peer :=
  { publicKey := 7, wgEndpoint := 7, allowedIPs := [cA, cB], persistentKeepalive := 25 }

def cfgA : Config := mkConfig 5 [samplePeer]
def prevA : Config := mkConfig 5 []

/-- Desired config for the C2 counterexample: H1 stored as the zero range
while H2 is a non-zero point range. -/
def cfgH2 : Config := { mkConfig 1 [] with amneziaH2 := { min := 5, max := 5 } }

/-- Desired config for the C3 failing input: I1 empty while I2 is set. -/
def cfgI2 : Config := { mkConfig 1 [] with amneziaI2 := "x" }

/-- A previous config with a different private key, so the device section
is emitted. -/
def prevZero : Config := mkConfig 0 []

def peerR1 : Peer :=
  { publicKey := 11, wgEndpoint := 11, allowedIPs := [], persistentKeepalive := 0 }
def peerR2 : Peer :=
  { publicKey := 12, wgEndpoint := 12, allowedIPs := [], persistentKeepalive := 0 }

/-- Previous config holding two peers that the desired config drops. -/
def prevR : Config := mkConfig 3 [peerR1, peerR2]
def cfgR : Config := mkConfig 3 []

/-- A sink that fails the write attempt of index 1. -/
def failAt1 : Nat → Option String := fun n => if n = 1 then some "boom" else none

def peerA : PeerInfo := { ip := "ipA", name := "A", nodeKey := 1 }
def peerB : PeerInfo := { ip := "ipB", name := "B", nodeKey := 2 }

/-- A fetch outcome in which every peer answers with a distinct
non-standard configuration. -/
def fetchAB : Nat → Except String AmneziaWGPrefs :=
  fun i => Except.ok { zeroPrefs with jc := i + 1 }

/-! Shared structural lemmas about the directive stream. -/

/-- The directive keys the obfuscation layer can emit. -/
def obfuscationKeys : List String :=
  ["jc", "jmin", "jmax", "s1", "s2", "s3", "s4",
   "i1", "i2", "i3", "i4", "i5", "h1", "h2", "h3", "h4"]

/-- The directive keys the device section can emit. -/
def deviceKeys : List String := "private_key" :: obfuscationKeys

/-- The directive keys a peer block can emit. -/
def peerKeys : List String :=
  ["public_key", "protocol_version", "endpoint", "replace_allowed_ips",
   "allowed_ip", "persistent_keepalive_interval"]

lemma mem_uint16Line_key {kv : String × String} {k : String} {s e : Nat}
    (h : kv ∈ uint16Line k s e) : kv.1 = k := by
  simp only [uint16Line] at h
  split at h <;> simp_all

lemma mem_sigLine_key {kv : String × String} {k s e : String}
    (h : kv ∈ sigLine k s e) : kv.1 = k := by
  simp only [sigLine] at h
  split at h <;> simp_all

lemma mem_headerLine_key {kv : String × String} {k : String} {s : MagicHeaderRange} {e : Nat}
    (h : kv ∈ headerLine k s e) : kv.1 = k := by
  simp only [headerLine] at h
  split at h <;> simp_all

lemma deviceLines_of_key_eq {env : Env} {cfg prev : Config}
    (h : prev.privateKey = cfg.privateKey) : deviceLines env cfg prev = [] := by
  unfold deviceLines
  simp [h]

lemma mem_deviceLines_key {env : Env} {cfg prev : Config} {kv : String × String}
    (h : kv ∈ deviceLines env cfg prev) : kv.1 ∈ deviceKeys := by
  unfold deviceLines at h
  split at h
  · simp at h
  · rcases List.mem_cons.mp h with rfl | h
    · simp [deviceKeys, obfuscationKeys]
    · simp only [List.mem_append] at h
      repeat' rcases h with h | h
      all_goals first
        | (rw [mem_uint16Line_key h]; simp [deviceKeys, obfuscationKeys])
        | (rw [mem_sigLine_key h]; simp [deviceKeys, obfuscationKeys])
        | (rw [mem_headerLine_key h]; simp [deviceKeys, obfuscationKeys])

/-- A peer block is either empty or the header pair followed by the three
gated sections. -/
lemma peerLines_cases (pp : List Peer) (p : Peer) :
    peerLines pp p = [] ∨
      peerLines pp p =
        ("public_key", hexStr p.publicKey) :: ("protocol_version", "1") ::
          ((if willSetEndpointB pp p then [("endpoint", hexStr p.publicKey)] else []) ++
           (if willChangeIPsB pp p then
              ("replace_allowed_ips", "true") :: allowedIPLines p.allowedIPs
            else []) ++
           (if willChangeKeepaliveB pp p then
              [("persistent_keepalive_interval", toString p.persistentKeepalive)]
            else [])) := by
  unfold peerLines
  split
  · exact Or.inl rfl
  · exact Or.inr rfl

lemma mem_peerLines_key {pp : List Peer} {p : Peer} {kv : String × String}
    (h : kv ∈ peerLines pp p) : kv.1 ∈ peerKeys := by
  rcases peerLines_cases pp p with hc | hc
  · rw [hc] at h; simp at h
  · rw [hc] at h
    rcases List.mem_cons.mp h with rfl | h
    · simp [peerKeys]
    rcases List.mem_cons.mp h with rfl | h
    · simp [peerKeys]
    simp only [List.mem_append] at h
    rcases h with (h | h) | h
    · split at h
      · simp at h; rw [h]; simp [peerKeys]
      · simp at h
    · split at h
      · rcases List.mem_cons.mp h with rfl | h
        · simp [peerKeys]
        · unfold allowedIPLines at h
          simp only [List.mem_map] at h
          obtain ⟨c, _, rfl⟩ := h
          simp [peerKeys]
      · simp at h
    · split at h
      · simp at h; rw [h]; simp [peerKeys]
      · simp at h

lemma mem_removeLines_key {p : Peer} {kv : String × String}
    (h : kv ∈ removeLines p) : kv.1 ∈ ["public_key", "remove"] := by
  unfold removeLines at h
  rcases List.mem_cons.mp h with rfl | h
  · simp
  · simp at h; rw [h]; simp

/-- Membership in the directive stream decomposes into the three sections. -/
lemma mem_toUAPIdirectives {env : Env} {cfg prev : Config} {o : List Peer}
    {kv : String × String} :
    kv ∈ toUAPIdirectives env cfg prev o ↔
      kv ∈ deviceLines env cfg prev ∨
        (∃ p ∈ cfg.peers, kv ∈ peerLines prev.peers p) ∨
        ∃ p ∈ o, kv ∈ removeLines p := by
  unfold toUAPIdirectives
  simp [List.mem_append, List.mem_flatMap, or_assoc]

/-! Lemmas about the old-peer map and the idempotent diff. -/

lemma foldl_lookupStep_of_no_key {k : Nat} {ps : List Peer} (acc : Option Peer)
    (h : ∀ p ∈ ps, p.publicKey ≠ k) : ps.foldl (lookupStep k) acc = acc := by
  induction ps generalizing acc with
  | nil => rfl
  | cons q rest ih =>
    have hq : q.publicKey ≠ k := h q (List.mem_cons_self q rest)
    simp only [List.foldl_cons, lookupStep, if_neg hq]
    exact ih acc fun p hp => h p (List.mem_cons_of_mem q hp)

/-- In a peer list without duplicate public keys the map lookup of a
member's key returns exactly that member. -/
lemma mapLookup_self_of_nodup {ps : List Peer}
    (hnd : (ps.map Peer.publicKey).Nodup) {p : Peer} (hp : p ∈ ps) :
    mapLookup ps p.publicKey = some p := by
  induction ps with
  | nil => simp at hp
  | cons q rest ih =>
    rw [List.map_cons, List.nodup_cons] at hnd
    rcases List.mem_cons.mp hp with rfl | hp
    · unfold mapLookup
      simp only [List.foldl_cons, lookupStep, if_pos rfl]
      exact foldl_lookupStep_of_no_key (some p)
        fun r hr hrk => hnd.1 (hrk ▸ List.mem_map_of_mem Peer.publicKey hr)
    · have hq : q.publicKey ≠ p.publicKey :=
        fun he => hnd.1 (he ▸ List.mem_map_of_mem Peer.publicKey hp)
      unfold mapLookup
      simp only [List.foldl_cons, lookupStep, if_neg hq]
      exact ih hnd.2 hp

lemma cidrsEqual_refl (x : List Cidr) : cidrsEqual x x = true := by
  unfold cidrsEqual
  simp

/-- A peer identical to its previous entry with a correct endpoint
identity is skipped entirely. -/
lemma peerLines_self {ps : List Peer} {p : Peer}
    (hl : mapLookup ps p.publicKey = some p) (hep : p.wgEndpoint = p.publicKey) :
    peerLines ps p = [] := by
  unfold peerLines willSetEndpointB willChangeIPsB willChangeKeepaliveB
  rw [hl]
  simp [hep, cidrsEqual_refl]

lemma mem_distinctKeys_aux :
    ∀ (ps : List Peer) (acc : List Nat) (x : Nat),
      x ∈ ps.foldl (fun acc p => if p.publicKey ∈ acc then acc else acc ++ [p.publicKey]) acc →
      x ∈ acc ∨ x ∈ ps.map Peer.publicKey := by
  intro ps
  induction ps with
  | nil => intro acc x h; exact Or.inl h
  | cons q rest ih =>
    intro acc x h
    rw [List.foldl_cons] at h
    rcases ih _ x h with hacc | hrest
    · split at hacc
      · exact Or.inl hacc
      · rcases List.mem_append.mp hacc with h1 | h1
        · exact Or.inl h1
        · rw [List.mem_singleton] at h1
          exact Or.inr (by rw [h1]; simp)
    · exact Or.inr (by simp [hrest])

lemma mem_distinctKeys {ps : List Peer} {x : Nat} (h : x ∈ distinctKeys ps) :
    x ∈ ps.map Peer.publicKey := by
  rcases mem_distinctKeys_aux ps [] x h with h1 | h1
  · simp at h1
  · exact h1

/-- Reconciling a configuration against itself leaves nothing in the
removal map. -/
lemma removedList_self (c : Config) : removedList c c = [] := by
  unfold removedList
  rw [List.filter_eq_nil_iff.mpr, List.filterMap_nil]
  intro k hk
  have := mem_distinctKeys hk
  simp only [List.mem_map] at this
  simpa using this

/-! C1 -/

/-- C1: isConfigZero is true exactly when every scalar field of the
preference object is zero/empty; and whenever the previous and desired
private keys are equal, ToUAPI emits none of the obfuscation directives
jc, jmin, jmax, s1..s4, i1..i5, h1..h4, for any iteration order of the
removal map. -/
theorem c1_standard_config_invariant :
    (∀ c : AmneziaWGPrefs,
        isConfigZero c = true ↔
          c.jc = 0 ∧ c.jmin = 0 ∧ c.jmax = 0 ∧ c.s1 = 0 ∧ c.s2 = 0 ∧
          c.i1 = "" ∧ c.i2 = "" ∧ c.i3 = "" ∧ c.i4 = "" ∧ c.i5 = "" ∧
          c.h1 = 0 ∧ c.h2 = 0 ∧ c.h3 = 0 ∧ c.h4 = 0) ∧
    ∀ (env : Env) (cfg prev : Config) (o : List Peer),
      prev.privateKey = cfg.privateKey →
      ∀ kv ∈ toUAPIdirectives env cfg prev o, kv.1 ∉ obfuscationKeys := by
  constructor
  · intro c
    simp [isConfigZero, and_assoc]
  · intro env cfg prev o hkey kv hkv
    rw [mem_toUAPIdirectives] at hkv
    rcases hkv with hd | ⟨p, _, hp⟩ | ⟨p, _, hp⟩
    · rw [deviceLines_of_key_eq hkey] at hd
      simp at hd
    · have hk := mem_peerLines_key hp
      have hdisj : ∀ s ∈ peerKeys, s ∉ obfuscationKeys := by decide
      exact hdisj _ hk
    · have hk := mem_removeLines_key hp
      have hdisj : ∀ s ∈ ["public_key", "remove"], s ∉ obfuscationKeys := by decide
      exact hdisj _ hk

/-- Witness for C1 at concrete inputs: the all-zero preference object is
standard, and a same-key reconciliation with a new peer emits no jc
directive. -/
theorem c1_standard_config_invariant_witness :
    isConfigZero zeroPrefs = true ∧
      ("jc", "4") ∉ toUAPIdirectives zeroEnv cfgA prevA [] :=
  ⟨(c1_standard_config_invariant.1 zeroPrefs).mpr (by decide),
   fun hm =>
     c1_standard_config_invariant.2 zeroEnv cfgA prevA [] rfl ("jc", "4") hm (by decide)⟩

/-! C2 -/

/-- C2 counterexample: with the desired H1 range stored as the zero range
and no environment override, ToUAPI still emits the h2 directive when the
stored H2 range is non-zero — each of h1..h4 is gated independently in
writer.go, so the all-or-none claim fails at this concrete input. -/
theorem c2_counterexample :
    cfgH2.amneziaH1 = { min := 0, max := 0 } ∧ zeroEnv.h1 = 0 ∧
      ("h2", "5") ∈ toUAPIdirectives zeroEnv cfgH2 prevZero [] := by
  refine ⟨rfl, rfl, ?_⟩
  decide

lemma headerLine_zero (k : String) : headerLine k { min := 0, max := 0 } 0 = [] := by
  simp [headerLine, u32Of]

/-- C2 amended: when the desired H1 range is the zero range and its
environment override is zero, ToUAPI emits no h1 directive; h2..h4 remain
gated only by their own stored ranges and overrides (the all-or-none
coupling is enforced solely by the interactive CLI prompt, which zeroes
H2..H4 when H1 is zero). -/
theorem c2_amended_no_h1 (env : Env) (cfg prev : Config) (o : List Peer)
    (h1z : cfg.amneziaH1 = { min := 0, max := 0 }) (hev : env.h1 = 0) :
    ∀ kv ∈ toUAPIdirectives env cfg prev o, kv.1 ≠ "h1" := by
  intro kv hkv
  rw [mem_toUAPIdirectives] at hkv
  rcases hkv with hd | ⟨p, _, hp⟩ | ⟨p, _, hp⟩
  · unfold deviceLines at hd
    split at hd
    · simp at hd
    · rcases List.mem_cons.mp hd with rfl | hd
      · simp
      simp only [List.mem_append] at hd
      repeat' rcases hd with hd | hd
      all_goals first
        | (rw [h1z, hev, headerLine_zero] at hd; simp at hd)
        | (rw [mem_uint16Line_key hd]; decide)
        | (rw [mem_sigLine_key hd]; decide)
        | (rw [mem_headerLine_key hd]; decide)
  · have hk := mem_peerLines_key hp
    intro he
    rw [he] at hk
    revert hk
    decide
  · have hk := mem_removeLines_key hp
    intro he
    rw [he] at hk
    revert hk
    decide

/-- Witness for C2 amended at a concrete input: the C2 counterexample
configuration emits no h1 line. -/
theorem c2_amended_no_h1_witness :
    ("h1", "0") ∉ toUAPIdirectives zeroEnv cfgH2 prevZero [] :=
  fun hm => c2_amended_no_h1 zeroEnv cfgH2 prevZero [] rfl rfl ("h1", "0") hm rfl

/-! C3 -/

/-- C3 failing input: the comment above the CPS block of writer.go states
that when I1 is missing the entire signature chain I2..I5 is skipped, and
the CLI documents the same invariant, but the code gates each of i1..i5
independently: with I1 empty (and no environment override) and I2 stored
as x, ToUAPI emits the i2 directive. -/
theorem c3_chain_divergence :
    cfgI2.amneziaI1 = "" ∧ zeroEnv.i1 = "" ∧
      ("i2", "x") ∈ toUAPIdirectives zeroEnv cfgI2 prevZero [] := by
  refine ⟨rfl, rfl, ?_⟩
  decide

/-! C4 -/

/-- C4: reconciling a well-formed configuration against itself (no
duplicate peer keys, endpoint identities equal to public keys) writes
nothing: no device directives and no peer directives of any kind, for any
iteration order of the (empty) removal map. -/
theorem c4_idempotent (env : Env) (c : Config) (o : List Peer)
    (hwf : c.WellFormed) (ho : o.Perm (removedList c c)) :
    toUAPIdirectives env c c o = [] := by
  have ho2 : o = [] := List.perm_nil.mp (removedList_self c ▸ ho)
  unfold toUAPIdirectives
  rw [deviceLines_of_key_eq rfl, ho2]
  simp only [List.nil_append, List.flatMap_nil, List.append_nil]
  rw [List.flatMap_eq_nil_iff]
  intro p hp
  exact peerLines_self (mapLookup_self_of_nodup hwf.1 hp) (hwf.2 p hp)

/-- Witness for C4: a concrete well-formed one-peer configuration
reconciled against itself emits nothing. -/
theorem c4_idempotent_witness : toUAPIdirectives zeroEnv cfgA cfgA [] = [] :=
  c4_idempotent zeroEnv cfgA [] (by decide) (by decide)

/-! C5 -/

lemma statsStep_total (fetch : Nat → Except String AmneziaWGPrefs)
    (st : AwgDiscoveryStats) (i : Nat) : (statsStep fetch st i).total = st.total := by
  unfold statsStep
  rcases fetch i with e | cfg
  · rfl
  · dsimp only
    split <;> rfl

lemma statsStep_sum (fetch : Nat → Except String AmneziaWGPrefs)
    (st : AwgDiscoveryStats) (i : Nat) :
    (statsStep fetch st i).withConfig + (statsStep fetch st i).standard +
        (statsStep fetch st i).failed =
      st.withConfig + st.standard + st.failed + 1 := by
  unfold statsStep
  rcases fetch i with e | cfg
  · dsimp only; omega
  · dsimp only
    split <;> (dsimp only; omega)

lemma statsStep_foldl (fetch : Nat → Except String AmneziaWGPrefs) :
    ∀ (l : List Nat) (st : AwgDiscoveryStats),
      (l.foldl (statsStep fetch) st).total = st.total ∧
        (l.foldl (statsStep fetch) st).withConfig +
            (l.foldl (statsStep fetch) st).standard +
            (l.foldl (statsStep fetch) st).failed =
          st.withConfig + st.standard + st.failed + l.length := by
  intro l
  induction l with
  | nil => intro st; exact ⟨rfl, by simp⟩
  | cons i rest ih =>
    intro st
    rw [List.foldl_cons]
    refine ⟨(ih _).1.trans (statsStep_total fetch st i), ((ih _).2).trans ?_⟩
    rw [statsStep_sum fetch st i, List.length_cons]
    omega

/-- C5 counterexample: with two peers that both answer successfully with
non-standard parameters and a completion interleaving in which the second
peer finishes first, the returned list is in completion order, not input
order — configs is appended under the mutex as goroutines finish and is
returned without the re-sort applied to the printed results. -/
theorem c5_counterexample :
    ([1, 0]).Perm (List.range ([peerA, peerB].length)) ∧
      (requestAWGConfigsFromPeers [peerA, peerB] fetchAB [1, 0]).1 ≠
        (List.range ([peerA, peerB].length)).filterMap
          (pickConfig [peerA, peerB] fetchAB) := by
  constructor
  · decide
  · decide

/-- C5 amended: for every input peer sequence and every completion
interleaving, the returned list contains exactly the peers whose fetch
succeeded with non-standard parameters — it is a permutation of the
input-order selection, ordered by completion (append) order rather than by
input position — and the statistics satisfy Total = number of input peers
and WithConfig + Standard + Failed = Total, failed peers contributing
nothing to the returned list. -/
theorem c5_amended (peers : List PeerInfo)
    (fetch : Nat → Except String AmneziaWGPrefs) (ord : List Nat)
    (hord : ord.Perm (List.range peers.length)) :
    ((requestAWGConfigsFromPeers peers fetch ord).1).Perm
        ((List.range peers.length).filterMap (pickConfig peers fetch)) ∧
      (requestAWGConfigsFromPeers peers fetch ord).2.total = peers.length ∧
      (requestAWGConfigsFromPeers peers fetch ord).2.withConfig +
          (requestAWGConfigsFromPeers peers fetch ord).2.standard +
          (requestAWGConfigsFromPeers peers fetch ord).2.failed =
        peers.length ∧
      ∀ i e, fetch i = Except.error e → pickConfig peers fetch i = none := by
  refine ⟨hord.filterMap _, ?_, ?_, ?_⟩
  · exact (statsStep_foldl fetch (List.range peers.length) _).1
  · have h := statsStep_foldl fetch (List.range peers.length)
      { total := peers.length, withConfig := 0, standard := 0, failed := 0 }
    simpa using h.2
  · intro i e he
    unfold pickConfig
    rw [he]
    rcases peers.get? i with _ | p <;> rfl

/-- Witness for C5 amended: at the two-peer counterexample input the
discovery statistics report both peers. -/
theorem c5_amended_witness :
    (requestAWGConfigsFromPeers [peerA, peerB] fetchAB [1, 0]).2.total =
      [peerA, peerB].length :=
  (c5_amended [peerA, peerB] fetchAB [1, 0] (by decide)).2.1

/-! C6 -/

/-- C6 counterexample: when two peers are removed, the removal section of
ToUAPI iterates a Go map, whose iteration order is unspecified; the two
valid iteration orders of a concrete two-peer removal produce different
directive sequences, so the (previous, desired) pair alone does not
determine the emitted sequence. -/
theorem c6_counterexample :
    ([peerR1, peerR2]).Perm (removedList cfgR prevR) ∧
      ([peerR2, peerR1]).Perm (removedList cfgR prevR) ∧
      toUAPIdirectives zeroEnv cfgR prevR [peerR1, peerR2] ≠
        toUAPIdirectives zeroEnv cfgR prevR [peerR2, peerR1] := by
  refine ⟨by decide, by decide, by decide⟩

/-- C6 amended: the device and per-peer sections are fully determined by
the (previous, desired) pair; the removal section consists of exactly the
removal blocks of the defunct peers, determined up to the map iteration
order, so any two invocations emit permutations of one another that agree
outside the removal section, and whenever at most one peer is removed the
two emitted sequences are identical. -/
theorem c6_amended (env : Env) (cfg prev : Config) (o1 o2 : List Peer)
    (h1 : o1.Perm (removedList cfg prev)) (h2 : o2.Perm (removedList cfg prev)) :
    toUAPIdirectives env cfg prev o1 =
        (deviceLines env cfg prev ++ cfg.peers.flatMap (peerLines prev.peers)) ++
          o1.flatMap removeLines ∧
      toUAPIdirectives env cfg prev o2 =
        (deviceLines env cfg prev ++ cfg.peers.flatMap (peerLines prev.peers)) ++
          o2.flatMap removeLines ∧
      (o1.flatMap removeLines).Perm (o2.flatMap removeLines) ∧
      ((removedList cfg prev).length ≤ 1 →
        toUAPIdirectives env cfg prev o1 = toUAPIdirectives env cfg prev o2) := by
  have h12 : o1.Perm o2 := h1.trans h2.symm
  refine ⟨by simp [toUAPIdirectives, List.append_assoc], by simp [toUAPIdirectives, List.append_assoc], ?_, ?_⟩
  · rw [List.flatMap_def, List.flatMap_def]
    exact (h12.map removeLines).flatten
  · intro hlen
    have ho : o1 = o2 := by
      rcases hr : removedList cfg prev with _ | ⟨a, rest⟩
      · rw [hr] at h1 h2
        rw [List.perm_nil.mp h1, List.perm_nil.mp h2]
      · rcases rest with _ | ⟨b, t⟩
        · rw [hr] at h1 h2
          rw [List.perm_singleton.mp h1, List.perm_singleton.mp h2]
        · rw [hr] at hlen
          simp at hlen
    rw [ho]

/-- Witness for C6 amended: the removal sections of the two-peer
counterexample in its two iteration orders are permutations of one
another. -/
theorem c6_amended_witness :
    (([peerR1, peerR2]).flatMap removeLines).Perm
      (([peerR2, peerR1]).flatMap removeLines) :=
  (c6_amended zeroEnv cfgR prevR [peerR1, peerR2] [peerR2, peerR1]
    (by decide) (by decide)).2.2.1

/-! C7 -/

/-- C7 counterexample: cidrsEqual accepts two lists of equal length when
every element of the second occurs in the first, so with duplicates it
returns true on lists that differ as sets — here cB belongs to x but not
to y, yet cidrsEqual x y is true. -/
theorem c7_counterexample :
    cidrsEqual [cA, cB] [cA, cA] = true ∧ cB ∈ [cA, cB] ∧ cB ∉ [cA, cA] := by
  decide

/-- C7 amended: restricted to duplicate-free prefix lists — the shape
allowedIPs takes in practice — cidrsEqual returns true exactly when the
two lists are equal as sets of prefixes; on lists with duplicates the
equivalence fails. -/
theorem c7_amended (x y : List Cidr) (hx : x.Nodup) (hy : y.Nodup) :
    cidrsEqual x y = true ↔ ∀ c : Cidr, c ∈ x ↔ c ∈ y := by
  constructor
  · intro h
    unfold cidrsEqual at h
    split at h
    case isTrue hlen =>
      split at h
      case isTrue hxy =>
        intro c
        rw [hxy]
      case isFalse hxy =>
        have hsub : ∀ v ∈ y, v ∈ x := by
          intro v hv
          simpa using List.all_eq_true.mp h v hv
        have hfin : y.toFinset ⊆ x.toFinset := by
          intro a ha
          exact List.mem_toFinset.mpr (hsub a (List.mem_toFinset.mp ha))
        have hcard : x.toFinset.card ≤ y.toFinset.card := by
          rw [List.toFinset_card_of_nodup hx, List.toFinset_card_of_nodup hy, hlen]
        have heq : y.toFinset = x.toFinset := Finset.eq_of_subset_of_card_le hfin hcard
        intro c
        constructor
        · intro hcx
          have hm : c ∈ x.toFinset := List.mem_toFinset.mpr hcx
          rw [← heq] at hm
          exact List.mem_toFinset.mp hm
        · intro hcy
          exact hsub c hcy
    case isFalse =>
      exact absurd h (by simp)
  · intro hset
    have hfeq : x.toFinset = y.toFinset := by
      ext a
      simp only [List.mem_toFinset]
      exact hset a
    have hlen : x.length = y.length := by
      rw [← List.toFinset_card_of_nodup hx, ← List.toFinset_card_of_nodup hy, hfeq]
    unfold cidrsEqual
    rw [if_pos hlen]
    split
    · rfl
    · rw [List.all_eq_true]
      intro v hv
      simpa using (hset v).mpr hv

/-- Witness for C7 amended: two duplicate-free lists holding the same two
prefixes in opposite orders are accepted by cidrsEqual. -/
theorem c7_amended_witness : cidrsEqual [cA, cB] [cB, cA] = true :=
  (c7_amended [cA, cB] [cB, cA] (by decide) (by decide)).mpr
    (by intro c; simp; tauto)

/-! C8 -/

lemma firstFailAux_succ (f : Nat → Option String) (start m : Nat) :
    firstFailAux f start (m + 1) =
      match f start with
      | some e => some (start, e)
      | none => firstFailAux f (start + 1) m := rfl

lemma foldl_setStep_err (f : Nat → Option String) :
    ∀ (ds : List (String × String)) (n : Nat) (out : List String) (e : String),
      ds.foldl (setStep f) (n, out, some e) = (n, out, some e) := by
  intro ds
  induction ds with
  | nil => intro n out e; rfl
  | cons d rest ih =>
    intro n out e
    rw [List.foldl_cons]
    exact ih n out e

lemma firstFailAux_ge (f : Nat → Option String) :
    ∀ (m start k : Nat) (e : String),
      firstFailAux f start m = some (k, e) → start ≤ k := by
  intro m
  induction m with
  | zero =>
    intro start k e h
    simp [firstFailAux] at h
  | succ m ih =>
    intro start k e h
    rw [firstFailAux_succ] at h
    rcases hf : f start with _ | e0 <;> rw [hf] at h
    · replace h : firstFailAux f (start + 1) m = some (k, e) := h
      have := ih (start + 1) k e h
      omega
    · replace h : (some (start, e0) : Option (Nat × String)) = some (k, e) := h
      have h2 : start = k ∧ e0 = e := by simpa using h
      omega

/-- The set closure fold, characterized: when no write attempt among the
next ds.length fails, every line is written; otherwise all lines strictly
before the first failing attempt are written, the failing attempt is the
last one made, and its error is latched. -/
lemma foldl_setStep_run (f : Nat → Option String) :
    ∀ (ds : List (String × String)) (n : Nat) (out : List String),
      (firstFailAux f n ds.length = none →
        ds.foldl (setStep f) (n, out, none) =
          (n + ds.length, out ++ ds.map fmtLine, none)) ∧
      ∀ k e, firstFailAux f n ds.length = some (k, e) →
        ds.foldl (setStep f) (n, out, none) =
          (k + 1, out ++ (ds.take (k - n)).map fmtLine, some e) := by
  intro ds
  induction ds with
  | nil =>
    intro n out
    constructor
    · intro _
      simp
    · intro k e h
      simp [firstFailAux] at h
  | cons d rest ih =>
    intro n out
    constructor
    · intro hnone
      rw [List.length_cons, firstFailAux_succ] at hnone
      rcases hf : f n with _ | e0 <;> rw [hf] at hnone
      · replace hnone : firstFailAux f (n + 1) rest.length = none := hnone
        have hstep : setStep f (n, out, none) d = (n + 1, out ++ [fmtLine d], none) := by
          simp only [setStep]
          rw [hf]
        rw [List.foldl_cons, hstep, (ih (n + 1) (out ++ [fmtLine d])).1 hnone,
          List.length_cons, List.map_cons, List.append_assoc, List.singleton_append]
        have h1 : n + 1 + rest.length = n + (rest.length + 1) := by omega
        rw [h1]
      · exact Option.noConfusion hnone
    · intro k e hsome
      rw [List.length_cons, firstFailAux_succ] at hsome
      rcases hf : f n with _ | e0 <;> rw [hf] at hsome
      · replace hsome : firstFailAux f (n + 1) rest.length = some (k, e) := hsome
        have hk := firstFailAux_ge f rest.length (n + 1) k e hsome
        have hstep : setStep f (n, out, none) d = (n + 1, out ++ [fmtLine d], none) := by
          simp only [setStep]
          rw [hf]
        have hkn : k - n = (k - (n + 1)) + 1 := by omega
        rw [List.foldl_cons, hstep, (ih (n + 1) (out ++ [fmtLine d])).2 k e hsome,
          hkn, List.take_succ_cons, List.map_cons, List.append_assoc,
          List.singleton_append]
      · replace hsome : (some (n, e0) : Option (Nat × String)) = some (k, e) := hsome
        have h12 : n = k ∧ e0 = e := by simpa using hsome
        obtain ⟨h1, h2⟩ := h12
        have hstep : setStep f (n, out, none) d = (n + 1, out, some e0) := by
          simp only [setStep]
          rw [hf]
        rw [List.foldl_cons, hstep, foldl_setStep_err f rest (n + 1) out e0]
        rw [← h1, ← h2]
        simp

/-- C8: sticky-error semantics of ToUAPI against a fallible sink.  When no
write attempt fails, every directive line is written and no error is
returned; when some attempt fails, the attempts stop at the first failing
one (k + 1 attempts for failure index k), exactly the lines before it are
written, and the single returned error wraps that first failure. -/
theorem c8_sticky_error (env : Env) (cfg prev : Config) (o : List Peer)
    (f : Nat → Option String) :
    (firstFailure f (toUAPIdirectives env cfg prev o).length = none →
      toUAPIRun env cfg prev o f =
        ((toUAPIdirectives env cfg prev o).length,
          (toUAPIdirectives env cfg prev o).map fmtLine, none)) ∧
    ∀ k e, firstFailure f (toUAPIdirectives env cfg prev o).length = some (k, e) →
      toUAPIRun env cfg prev o f =
        (k + 1, ((toUAPIdirectives env cfg prev o).take k).map fmtLine,
          some ("ToUAPI: " ++ e)) := by
  constructor
  · intro h
    unfold toUAPIRun
    rw [(foldl_setStep_run f (toUAPIdirectives env cfg prev o) 0 []).1 h]
    simp
  · intro k e h
    unfold toUAPIRun
    rw [(foldl_setStep_run f (toUAPIdirectives env cfg prev o) 0 []).2 k e h]
    simp

/-- Witness for C8: against a sink failing the second write attempt, a
two-directive reconciliation makes exactly two attempts, writes the first
line only, and returns the wrapped first failure. -/
theorem c8_sticky_error_witness :
    toUAPIRun zeroEnv cfgI2 prevZero [] failAt1 =
      (2, ((toUAPIdirectives zeroEnv cfgI2 prevZero []).take 1).map fmtLine,
        some ("ToUAPI: " ++ "boom")) :=
  (c8_sticky_error zeroEnv cfgI2 prevZero [] failAt1).2 1 "boom" (by decide)

/-! C9 -/

/-- C9: keepalive ordering.  For any peer block in which both the
allowed-IP section and the keepalive section are being emitted, the
persistent_keepalive_interval line is the final line of the block, preceded
by a front segment that never carries the keepalive key and that contains
the replace_allowed_ips line and every allowed_ip line — so every
replace_allowed_ips/allowed_ip line sits strictly before the keepalive
line. -/
theorem c9_keepalive_last (pp : List Peer) (p : Peer)
    (hips : willChangeIPsB pp p = true) (hka : willChangeKeepaliveB pp p = true) :
    ∃ front,
      peerLines pp p =
          front ++ [("persistent_keepalive_interval", toString p.persistentKeepalive)] ∧
        (∀ kv ∈ front, kv.1 ≠ "persistent_keepalive_interval") ∧
        ("replace_allowed_ips", "true") ∈ front ∧
        ∀ c ∈ p.allowedIPs, ("allowed_ip", c.str) ∈ front := by
  refine ⟨("public_key", hexStr p.publicKey) :: ("protocol_version", "1") ::
      ((if willSetEndpointB pp p then [("endpoint", hexStr p.publicKey)] else []) ++
        (("replace_allowed_ips", "true") :: allowedIPLines p.allowedIPs)),
    ?_, ?_, ?_, ?_⟩
  · unfold peerLines
    rw [hips, hka]
    simp [List.append_assoc]
  · intro kv hkv
    rcases List.mem_cons.mp hkv with rfl | hkv
    · simp
    rcases List.mem_cons.mp hkv with rfl | hkv
    · simp
    rcases List.mem_append.mp hkv with h1 | h1
    · split at h1
      · rw [List.mem_singleton] at h1
        rw [h1]
        simp
      · simp at h1
    · rcases List.mem_cons.mp h1 with rfl | h1
      · simp
      · obtain ⟨c, _, rfl⟩ := List.mem_map.mp h1
        simp
  · exact List.mem_cons_of_mem _ (List.mem_cons_of_mem _
      (List.mem_append.mpr (Or.inr (List.mem_cons_self _ _))))
  · intro c hc
    refine List.mem_cons_of_mem _ (List.mem_cons_of_mem _
      (List.mem_append.mpr (Or.inr (List.mem_cons_of_mem _ ?_))))
    exact List.mem_map.mpr ⟨c, hc, rfl⟩

/-- Witness for C9 at the spec scenario: the previous peer has one
allowed prefix and keepalive 0, the desired peer two prefixes and
keepalive 25, so both booleans hold. -/
theorem c9_keepalive_last_witness :
    ∃ front,
      peerLines [samplePeer] samplePeerV2 =
          front ++
            [("persistent_keepalive_interval",
              toString samplePeerV2.persistentKeepalive)] ∧
        (∀ kv ∈ front, kv.1 ≠ "persistent_keepalive_interval") ∧
        ("replace_allowed_ips", "true") ∈ front ∧
        ∀ c ∈ samplePeerV2.allowedIPs, ("allowed_ip", c.str) ∈ front :=
  c9_keepalive_last [samplePeer] samplePeerV2 (by decide) (by decide)

/-! C10 -/

/-- C10: every endpoint directive in the emitted stream originates from the
block of some desired peer, its value is the untyped hex encoding of that
peer's public key, and the same string is the value of the block's
public_key line; no stored transport endpoint is ever written. -/
theorem c10_endpoint_value (env : Env) (cfg prev : Config) (o : List Peer)
    (v : String) (h : ("endpoint", v) ∈ toUAPIdirectives env cfg prev o) :
    ∃ p ∈ cfg.peers, v = hexStr p.publicKey ∧
      ("public_key", v) ∈ peerLines prev.peers p ∧
      ("endpoint", v) ∈ peerLines prev.peers p := by
  rw [mem_toUAPIdirectives] at h
  rcases h with hd | ⟨p, hp, hline⟩ | ⟨p, hp, hline⟩
  · have hk := mem_deviceLines_key hd
    simp [deviceKeys, obfuscationKeys] at hk
  · have hv : v = hexStr p.publicKey := by
      rcases peerLines_cases prev.peers p with hc | hc
      · rw [hc] at hline
        simp at hline
      · rw [hc] at hline
        rcases List.mem_cons.mp hline with he | hline
        · have hfst := congrArg Prod.fst he
          simp at hfst
        rcases List.mem_cons.mp hline with he | hline
        · have hfst := congrArg Prod.fst he
          simp at hfst
        rcases List.mem_append.mp hline with h1 | h1
        · rcases List.mem_append.mp h1 with h2 | h2
          · split at h2
            · rw [List.mem_singleton] at h2
              exact congrArg Prod.snd h2
            · simp at h2
          · split at h2
            · rcases List.mem_cons.mp h2 with he | h2
              · have hfst := congrArg Prod.fst he
                simp at hfst
              · obtain ⟨c, _, hce⟩ := List.mem_map.mp h2
                have hfst := congrArg Prod.fst hce.symm
                simp at hfst
            · simp at h2
        · split at h1
          · rw [List.mem_singleton] at h1
            have hfst := congrArg Prod.fst h1
            simp at hfst
          · simp at h1
    refine ⟨p, hp, hv, ?_, hline⟩
    rcases peerLines_cases prev.peers p with hc | hc
    · rw [hc] at hline
      simp at hline
    · rw [hc, hv]
      exact List.mem_cons_self _ _
  · have hk := mem_removeLines_key hline
    simp at hk

/-- Witness for C10: a freshly added peer's block carries an endpoint line
whose value is the hex of its public key, identical to its public_key
line. -/
theorem c10_endpoint_value_witness :
    ∃ p ∈ cfgA.peers, "7" = hexStr p.publicKey ∧
      ("public_key", "7") ∈ peerLines prevA.peers p ∧
      ("endpoint", "7") ∈ peerLines prevA.peers p :=
  c10_endpoint_value zeroEnv cfgA prevA [] "7" (by decide)

end AwgSpec
